import Mathlib

/-!
Verification of the pg-dumper backup pipeline.

The development shallowly embeds the TypeScript sources:
  - `src/db-service.ts`   (connection-string parsing, dump subprocess),
  - `src/s3-service.ts`   (object-key construction, upload, retention),
  - `src/index.ts`        (per-database orchestration loop, exit code),
  - `src/types.ts`        (data model).

JavaScript strings are modelled as `List Char`.  JavaScript `Date` values
are modelled as broken-down UTC field records (`DateTime`) together with an
epoch-seconds view (`toEpochSeconds`), following the proleptic Gregorian
calendar that ECMA-262 prescribes.  External collaborators (the S3 client,
the pg_dump subprocess, date-fns) are modelled at their interfaces; each
such model is marked in its doc comment.
-/

set_option maxRecDepth 4096
set_option maxHeartbeats 1000000

/-- JavaScript string, modelled as its list of characters. -/
abbrev JStr := List Char

/-- Coerce a Lean string literal into the JavaScript string model. -/
def js (s : String) : JStr := s.data

/-- Model of JavaScript `String.prototype.split` with a single-character
separator and no limit: `"".split(c)` is `[""]`, separators at the ends
produce empty segments. -/
def splitOnChar (c : Char) : JStr → List JStr
  | [] => [[]]
  | x :: xs =>
    match splitOnChar c xs with
    | [] => [[]]
    | s :: ss => if x = c then [] :: s :: ss else (x :: s) :: ss

/-- Model of JavaScript `parseInt(str, 10)`: optional sign, then the longest
leading run of decimal digits; `NaN` (here `none`) when no digit leads. -/
def parseIntDec (l : JStr) : Option Int :=
  match l with
  | '-' :: rest => (parseIntDecNat rest).map (fun n => -(n : Int))
  | '+' :: rest => (parseIntDecNat rest).map (fun n => (n : Int))
  | _ => (parseIntDecNat l).map (fun n => (n : Int))
where
  /-- Longest leading digit run, as a number. -/
  parseIntDecNat (l : JStr) : Option Nat :=
    let ds := l.takeWhile (fun ch => '0' ≤ ch ∧ ch ≤ '9')
    if ds = [] then none
    else some (ds.foldl (fun acc ch => acc * 10 + (ch.toNat - 48)) 0)

/-- Error values thrown by the modelled code paths. -/
inductive JsError where
  /-- Runtime `TypeError` from reading a property of `undefined`. -/
  | typeError : JsError
  /-- Failure reported by the PostgreSQL client during the version check. -/
  | pgError : JsError
  /-- Failure reported by the S3 client (upload, list or delete). -/
  | s3Error : JsError
deriving DecidableEq, Repr

/-- `ConnectionDetails` from `src/types.ts`.  `password` is `none` when the
JavaScript destructuring left it `undefined`; `port` is `none` when
`parseInt` produced `NaN`. -/
structure ConnectionDetails where
  username : JStr
  password : Option JStr
  host : JStr
  port : Option Int
  database : JStr
deriving DecidableEq, Repr

/-- `DatabaseService.parseConnectionString` from `src/db-service.ts`:
strip a leading `postgres://`, split at `@` into userpass and hostdb
(destructuring keeps only the first two parts), split userpass at `:`
(keeping only the first two parts), then split hostdb at `/` and `:` for
host, port and database (query string stripped, database defaulting to
`postgres`).  When the input has no `@`, `hostdb` is `undefined` and
`hostdb.split('/')` throws a TypeError. -/
def parseConnectionString (s : JStr) : Except JsError ConnectionDetails :=
  let conn := if s.take 11 = js "postgres://" then s.drop 11 else s
  let parts := splitOnChar '@' conn
  let userpass := parts.headD []
  match parts[1]? with
  | none => .error .typeError
  | some hostdb =>
    let ups := splitOnChar ':' userpass
    let username := ups.headD []
    let password := ups[1]?
    let hostdbParts := splitOnChar '/' hostdb
    let hostportPart := hostdbParts.headD []
    let hp := splitOnChar ':' hostportPart
    let host := hp.headD []
    let port := (hp[1]?).bind parseIntDec
    let database :=
      match hostdbParts[1]? with
      | none => js "postgres"
      | some seg => (splitOnChar '?' seg).headD []
    .ok ⟨username, password, host, port, database⟩

/-- Derived view of the success branch of `parseConnectionString`: the
details built from the userpass part and the hostdb part (used to state
lemmas about inputs that do contain an `@`). -/
def mkDetails (userpass hostdb : JStr) : ConnectionDetails :=
  let ups := splitOnChar ':' userpass
  let hostdbParts := splitOnChar '/' hostdb
  let hp := splitOnChar ':' (hostdbParts.headD [])
  ⟨ups.headD [], ups[1]?, hp.headD [], (hp[1]?).bind parseIntDec,
   match hostdbParts[1]? with
   | none => js "postgres"
   | some seg => (splitOnChar '?' seg).headD []⟩

/-- Broken-down UTC time, the field view of a JavaScript `Date`. -/
structure DateTime where
  year : Nat
  month : Nat
  day : Nat
  hour : Nat
  minute : Nat
  second : Nat
deriving DecidableEq, Repr

/-- Gregorian leap-year rule (as used by ECMA-262 and date-fns). -/
def isLeap (y : Nat) : Bool :=
  (y % 4 = 0 && y % 100 != 0) || y % 400 = 0

/-- Number of days of month `m` (1..12) in year `y`. -/
def daysInMonth (y m : Nat) : Nat :=
  if m = 2 then (if isLeap y then 29 else 28)
  else if m = 4 || m = 6 || m = 9 || m = 11 then 30
  else 31

/-- Number of days in year `y`. -/
def daysInYear (y : Nat) : Nat := if isLeap y then 366 else 365

/-- Days in the months of year `y` strictly before month `m`. -/
def daysBeforeMonth (y : Nat) : Nat → Nat
  | 0 => 0
  | 1 => 0
  | m + 1 => daysBeforeMonth y m + daysInMonth y m

/-- Days in the Gregorian years `1 .. n` (closed form over the leap rule). -/
def daysBeforeYear (n : Nat) : Nat :=
  365 * n + n / 4 - n / 100 + n / 400

/-- Days from 1970-01-01 (the JavaScript epoch) to the civil date
`y-m-d`, proleptic Gregorian, negative before the epoch. -/
def epochDays (y m d : Nat) : Int :=
  ((daysBeforeYear (y - 1) + daysBeforeMonth y m + (d - 1) : Nat) : Int)
    - (daysBeforeYear 1969 : Int)

/-- Epoch seconds of a broken-down UTC time (the number a JavaScript
`Date` stores, divided by 1000). -/
def toEpochSeconds (dt : DateTime) : Int :=
  epochDays dt.year dt.month dt.day * 86400
    + (dt.hour * 3600 + dt.minute * 60 + dt.second : Nat)

/-- Field validity of a broken-down time, as accepted by the ECMA-262
date-time string grammar (hour 24 is allowed only as 24:00:00). -/
def ValidDateTime (dt : DateTime) : Prop :=
  1 ≤ dt.year ∧ 1 ≤ dt.month ∧ dt.month ≤ 12 ∧
  1 ≤ dt.day ∧ dt.day ≤ daysInMonth dt.year dt.month ∧
  ((dt.hour ≤ 23 ∧ dt.minute ≤ 59 ∧ dt.second ≤ 59) ∨
   (dt.hour = 24 ∧ dt.minute = 0 ∧ dt.second = 0))

instance (dt : DateTime) : Decidable (ValidDateTime dt) := by
  unfold ValidDateTime; infer_instance

/-- Civil date of a day count from 1970-01-01 (model of the JavaScript
`Date` epoch-to-fields direction; Hinnant's algorithm, used only on
non-negative epochs in this development). -/
def civilFromDays (z0 : Int) : Nat × Nat × Nat :=
  let z : Nat := (z0 + 719468).toNat
  let era := z / 146097
  let doe := z % 146097
  let yoe := (doe - doe / 1460 + doe / 36524 - doe / 146096) / 365
  let y := yoe + era * 400
  let doy := doe - (365 * yoe + yoe / 4 - yoe / 100)
  let mp := (5 * doy + 2) / 153
  let d := doy - (153 * mp + 2) / 5 + 1
  let m := if mp < 10 then mp + 3 else mp - 9
  (if m ≤ 2 then y + 1 else y, m, d)

/-- Broken-down UTC fields of an epoch-seconds instant (model of the
JavaScript `Date` field accessors, non-negative epochs). -/
def ofEpochSeconds (t : Int) : DateTime :=
  let days := t / 86400
  let sod := (t % 86400).toNat
  let c := civilFromDays days
  ⟨c.1, c.2.1, c.2.2, sod / 3600, sod % 3600 / 60, sod % 60⟩

/-- Shift an instant into a fixed local-time offset (seconds east of UTC).
Models what date-fns `format` renders on a machine with that offset: the
broken-down local fields of the instant.  Offset zero renders the UTC
fields themselves. -/
def shiftTz (tz : Int) (dt : DateTime) : DateTime :=
  if tz = 0 then dt else ofEpochSeconds (toEpochSeconds dt + tz)

/-- Decimal digit character. -/
def digitChar (n : Nat) : Char := Char.ofNat (48 + n)

/-- Two-digit zero-padded decimal rendering. -/
def pad2 (n : Nat) : JStr := [digitChar (n / 10 % 10), digitChar (n % 10)]

/-- Four-digit zero-padded decimal rendering. -/
def pad4 (n : Nat) : JStr :=
  [digitChar (n / 1000 % 10), digitChar (n / 100 % 10),
   digitChar (n / 10 % 10), digitChar (n % 10)]

/-- Model of date-fns `format(date, 'yyyyMMdd_HHmmss')` applied to the
broken-down fields `dt`. -/
def renderTs (dt : DateTime) : JStr :=
  pad4 dt.year ++ pad2 dt.month ++ pad2 dt.day ++ '_' ::
    (pad2 dt.hour ++ pad2 dt.minute ++ pad2 dt.second)

/-- JavaScript truthiness of an optional string (`undefined` and the empty
string are falsy). -/
def jsTruthy (o : Option JStr) : Bool :=
  match o with
  | some (_ :: _) => true
  | _ => false

/-- `S3Service.createS3Path` from `src/s3-service.ts`: the timestamp is
date-fns `format(new Date(), 'yyyyMMdd_HHmmss')` — the broken-down fields
of the current instant in the machine's local timezone (`tz` seconds east
of UTC) — and the path is built by appending `prefix/` and `folder/` only
when truthy, then `name_timestamp.dump`. -/
def createS3Path (pfx : Option JStr) (tz : Int) (now : DateTime)
    (dbName : JStr) (folder : Option JStr) : JStr :=
  let timestamp := renderTs (shiftTz tz now)
  let fileName := dbName ++ '_' :: (timestamp ++ js ".dump")
  let path : JStr := []
  let path := path ++ (if jsTruthy pfx then pfx.getD [] ++ ['/'] else [])
  let path := path ++ (if jsTruthy folder then folder.getD [] ++ ['/'] else [])
  path ++ fileName

/-- `S3Service.createPrefix` from `src/s3-service.ts` (named `...Path` here):
`prefix/` when the global prefix is truthy, then `folder/` when the folder
string is non-empty. -/
def createPrefixPath (pfx : Option JStr) (folder : JStr) : JStr :=
  (if jsTruthy pfx then pfx.getD [] ++ ['/'] else [])
    ++ (if folder = [] then [] else folder ++ ['/'])

/-- Adjacent doubled separator detector. -/
def hasDoubleSlash : JStr → Bool
  | c1 :: c2 :: rest => (c1 = '/' && c2 = '/') || hasDoubleSlash (c2 :: rest)
  | _ => false

/-- Decimal digit test, JavaScript regex `\d`. -/
def isDigitCh (c : Char) : Bool := 48 ≤ c.toNat && c.toNat ≤ 57

/-- Attempt to match the regex `dbName_(\d{8})_(\d{6})\.dump$` (with
`dbName` taken literally) at the very start of `s`, consuming all of `s`;
returns the two capture groups. -/
def tryMatchAt (db s : JStr) : Option (JStr × JStr) :=
  if s.take db.length = db then
    match s.drop db.length with
    | '_' :: rest =>
      let d8 := rest.take 8
      if d8.length = 8 && d8.all isDigitCh then
        match rest.drop 8 with
        | '_' :: rest2 =>
          let d6 := rest2.take 6
          if d6.length = 6 && d6.all isDigitCh && rest2.drop 6 = js ".dump"
          then some (d8, d6) else none
        | _ => none
      else none
    | _ => none
  else none

/-- Model of `fileName.match(new RegExp(dbName + '_(\\d{8})_(\\d{6})\\.dump$'))`
for a `dbName` made of regex-literal characters: the pattern is
end-anchored, so a match is an exact pattern instance at some suffix, and
JavaScript returns the leftmost one.  Result: the two capture groups. -/
def firstMatch (db : JStr) : JStr → Option (JStr × JStr)
  | [] => tryMatchAt db []
  | s@(_ :: tl) =>
    match tryMatchAt db s with
    | some r => some r
    | none => firstMatch db tl

/-- Reconstruction of the backup timestamp in `S3Service.deleteOldBackups`:
fixed-position substrings of the two capture groups are interpolated into
an ISO string with a `Z` suffix and handed to `new Date(...)`.  Model of
that `Date` constructor: field-range validation per the ECMA-262 date-time
string grammar, then epoch seconds of the UTC fields; `none` is the
Invalid Date (`NaN`) outcome. -/
def parseBackupDate (d8 d6 : JStr) : Option Int :=
  let num := fun (l : JStr) => l.foldl (fun a c => a * 10 + (c.toNat - 48)) 0
  let dt : DateTime :=
    ⟨num (d8.take 4), num ((d8.drop 4).take 2), num (d8.drop 6),
     num (d6.take 2), num ((d6.drop 2).take 2), num (d6.drop 4)⟩
  if ValidDateTime dt then some (toEpochSeconds dt) else none

/-- `key.split('/').pop()`: the trailing file name of an object key. -/
def lastSeg (l : JStr) : JStr := (splitOnChar '/' l).getLastD []

/-- The per-object decision of `S3Service.deleteOldBackups`: skip falsy
keys and file names, skip names the pattern rejects, skip unparsable
timestamps (`NaN < cutoff` is false), and delete exactly when the
reconstructed timestamp is strictly before the cutoff. -/
def shouldDelete (db : JStr) (cutoff : Int) (key : JStr) : Bool :=
  let fileName := lastSeg key
  if fileName = [] then false
  else
    match firstMatch db fileName with
    | none => false
    | some (d8, d6) =>
      match parseBackupDate d8 d6 with
      | none => false
      | some t => decide (t < cutoff)

/-- One page of the listing loop body: fold the page's keys, deleting and
counting those `shouldDelete` accepts. -/
def processPage (db : JStr) (cutoff : Int) (acc : Nat × List JStr)
    (page : List JStr) : Nat × List JStr :=
  page.foldl
    (fun a key => if shouldDelete db cutoff key then (a.1 + 1, a.2 ++ [key]) else a)
    acc

/-- `S3Service.deleteOldBackups` from `src/s3-service.ts`.  `now` is the
current instant in epoch seconds; the cutoff is date-fns
`subDays(new Date(), retentionDays)`.  `pages` are the successive
`ListObjectsV2` result pages the S3 service returns for the prefix
`createPrefixPath pfx folder` — the do/while loop follows continuation
tokens, so it visits the pages in order until none remains.  Returns the
deleted count and the deleted keys in deletion order. -/
def deleteOldBackups (pfx : Option JStr) (db folder : JStr)
    (retentionDays : Nat) (now : Int) (pages : List (List JStr)) :
    Nat × List JStr :=
  let _listingPfx := createPrefixPath pfx folder
  let cutoff := now - retentionDays * 86400
  pages.foldl (processPage db cutoff) (0, [])

/-- The dump subprocess, at its interface: the chunks its stdout emits
before it terminates, and its exit status.  `exitCode` is non-zero (or the
process died on a signal, `signaled = true`) when `pg_dump` failed. -/
structure DumpProc where
  stdoutChunks : List (List Nat)
  exitCode : Int
  signaled : Bool
deriving DecidableEq, Repr

/-- `DatabaseService.createDumpStream` from `src/db-service.ts`: spawns
`pg_dump` and returns its stdout as a readable stream.  The attached
`stderr`, `error` and `exit` listeners only write log lines — in
particular the `exit` handler logs a non-zero code but neither destroys
the stream nor emits an error on it — so the returned byte sequence is
exactly the stdout chunks, ending with a normal end-of-stream regardless
of the exit status.  The function itself never throws. -/
def createDumpStream (p : DumpProc) : List (List Nat) :=
  p.stdoutChunks

/-- `DatabaseConfig` from `src/types.ts` (validated input file entry). -/
structure DbConfig where
  name : JStr
  connection : JStr
  folder : Option JStr
  retentionDays : Nat
deriving DecidableEq, Repr

/-- Per-run state of the orchestrator: the instant the run operates at,
the machine's local-time offset, and the configured global key prefix. -/
structure RunEnv where
  now : DateTime
  tz : Int
  pfx : Option JStr

/-- External outcomes for one database: what the PostgreSQL server, the
dump subprocess and the S3 service do when called.  `uploadResult` sees
only the byte sequence and the key — the source gives the `Upload` client
no channel to the subprocess's exit status. -/
structure DbEnv where
  serverVersion : Except JsError Nat
  dumpProc : DumpProc
  uploadResult : List (List Nat) → JStr → Except JsError JStr
  listing : Except JsError (List (List JStr))

/-- `BackupResult` from `src/types.ts`. -/
structure BackupResult where
  database : JStr
  success : Bool
  path : Option JStr
  error : Option JsError
  deletedBackups : Option Nat
deriving DecidableEq, Repr

/-- The body of the per-database `try` block in `runBackups`
(`src/index.ts`): parse the connection string, check the server version
(a client/server mismatch only logs a warning), compute the S3 key, start
the dump stream, upload it, then enforce retention.  Any thrown error
escapes to the enclosing `catch`. -/
def backupSteps (g : RunEnv) (cfg : DbConfig) (env : DbEnv) :
    Except JsError (JStr × Nat) := do
  let _details ← parseConnectionString cfg.connection
  let _serverVersion ← env.serverVersion
  let s3Key := createS3Path g.pfx g.tz g.now cfg.name cfg.folder
  let dumpStream := createDumpStream env.dumpProc
  let uploadedKey ← env.uploadResult dumpStream s3Key
  let pages ← env.listing
  let deletedCount :=
    (deleteOldBackups g.pfx cfg.name (cfg.folder.getD []) cfg.retentionDays
      (toEpochSeconds g.now) pages).1
  return (uploadedKey, deletedCount)

/-- One iteration of the `for (const dbConfig of connections)` loop: the
`try` block's outcome becomes this database's `BackupResult`; a thrown
error is caught and recorded as a failure, and the loop moves on. -/
def processDb (g : RunEnv) (cfg : DbConfig) (env : DbEnv) : BackupResult :=
  match backupSteps g cfg env with
  | .ok (key, deleted) =>
    { database := cfg.name, success := true, path := some key,
      error := none, deletedBackups := some deleted }
  | .error e =>
    { database := cfg.name, success := false, path := none,
      error := some e, deletedBackups := none }

/-- The results accumulator of `runBackups`: the loop pushes one result
per configured database, in list order. -/
def runLoop (g : RunEnv) (items : List (DbConfig × DbEnv))
    (acc : List BackupResult) : List BackupResult :=
  match items with
  | [] => acc
  | (cfg, env) :: rest => runLoop g rest (acc ++ [processDb g cfg env])

/-- The result list `runBackups` ends up with after the loop. -/
def runBackupsResults (g : RunEnv) (items : List (DbConfig × DbEnv)) :
    List BackupResult :=
  runLoop g items []

/-- The process exit code `runBackups` produces once the loop has run:
`results.every(r => r.success)` decides between a normal exit (0) and the
`process.exit(1)` reached through the final thrown error. -/
def runBackupsExitCode (g : RunEnv) (items : List (DbConfig × DbEnv)) : Nat :=
  if (runBackupsResults g items).all (fun r => r.success) then 0 else 1

/-- The pure name-to-timestamp function of the Retention Enforcer: trailing
file name, pattern match, timestamp reconstruction.  `none` when the
pattern rejects the name or the reconstructed `Date` is invalid. -/
def keyTimestamp (db key : JStr) : Option Int :=
  match firstMatch db (lastSeg key) with
  | none => none
  | some (d8, d6) => parseBackupDate d8 d6

/-- Broken-down fields as a JavaScript `Date`'s accessors actually report
them (hour 0..23) — the shape date-fns `format` consumes. -/
def ClockDateTime (dt : DateTime) : Prop :=
  1 ≤ dt.year ∧ 1 ≤ dt.month ∧ dt.month ≤ 12 ∧
  1 ≤ dt.day ∧ dt.day ≤ daysInMonth dt.year dt.month ∧
  dt.hour ≤ 23 ∧ dt.minute ≤ 59 ∧ dt.second ≤ 59

instance (dt : DateTime) : Decidable (ClockDateTime dt) := by
  unfold ClockDateTime; infer_instance

/-- Characters the JavaScript regex engine treats as literals when the
database name is interpolated into the retention pattern: ASCII letters,
digits, underscore and hyphen. -/
def regexLiteralName (l : JStr) : Prop :=
  ∀ c ∈ l, (48 ≤ c.toNat ∧ c.toNat ≤ 57) ∨ (65 ≤ c.toNat ∧ c.toNat ≤ 90) ∨
    (97 ≤ c.toNat ∧ c.toNat ≤ 122) ∨ c = '_' ∨ c = '-'

instance (l : JStr) : Decidable (regexLiteralName l) := by
  unfold regexLiteralName; infer_instance

/-- Field-lexicographic strict order on broken-down times — equivalent to
chronological order on valid field records. -/
def fieldLex (dt1 dt2 : DateTime) : Prop :=
  dt1.year < dt2.year ∨ (dt1.year = dt2.year ∧
   (dt1.month < dt2.month ∨ (dt1.month = dt2.month ∧
    (dt1.day < dt2.day ∨ (dt1.day = dt2.day ∧
     (dt1.hour < dt2.hour ∨ (dt1.hour = dt2.hour ∧
      (dt1.minute < dt2.minute ∨ (dt1.minute = dt2.minute ∧
       dt1.second < dt2.second)))))))))

/-- Lexicographic (code-unit) strict order on strings, the order object
stores and JavaScript `<` use on keys. -/
def jsStrLt : JStr → JStr → Bool
  | [], [] => false
  | [], _ :: _ => true
  | _ :: _, [] => false
  | a :: as, b :: bs =>
    if a.toNat < b.toNat then true
    else if b.toNat < a.toNat then false
    else jsStrLt as bs

/-! ## General lemmas about the string model -/

theorem splitOnChar_ne_nil (c : Char) (l : JStr) : splitOnChar c l ≠ [] := by
  cases l with
  | nil => simp [splitOnChar]
  | cons x xs =>
    simp only [splitOnChar]
    cases h : splitOnChar c xs with
    | nil => simp
    | cons s ss => by_cases hx : x = c <;> simp [hx]

theorem splitOnChar_not_mem (c : Char) (l : JStr) (h : c ∉ l) :
    splitOnChar c l = [l] := by
  induction l with
  | nil => rfl
  | cons x xs ih =>
    simp only [List.mem_cons, not_or] at h
    simp only [splitOnChar, ih h.2]
    simp [Ne.symm h.1]

theorem splitOnChar_append_cons (c : Char) (a b : JStr) (h : c ∉ a) :
    splitOnChar c (a ++ c :: b) = a :: splitOnChar c b := by
  induction a with
  | nil =>
    simp only [List.nil_append, splitOnChar]
    cases hb : splitOnChar c b with
    | nil => exact absurd hb (splitOnChar_ne_nil c b)
    | cons s ss => simp
  | cons x xs ih =>
    simp only [List.mem_cons, not_or] at h
    simp only [List.cons_append, splitOnChar, List.append_eq]
    rw [ih h.2]
    simp [Ne.symm h.1]

theorem splitOnChar_length (c : Char) (l : JStr) :
    (splitOnChar c l).length = l.count c + 1 := by
  induction l with
  | nil => rfl
  | cons x xs ih =>
    simp only [splitOnChar]
    cases h : splitOnChar c xs with
    | nil => exact absurd h (splitOnChar_ne_nil c xs)
    | cons s ss =>
      rw [h] at ih
      by_cases hx : x = c
      · subst hx
        simp at *
        omega
      · simp only [List.count_cons, hx, List.length_cons, if_false,
          beq_iff_eq, add_zero] at *
        omega

/-! ## Retention loop characterization -/

theorem processPage_eq (db : JStr) (cutoff : Int) (acc : Nat × List JStr)
    (page : List JStr) :
    processPage db cutoff acc page =
      (acc.1 + (page.filter (shouldDelete db cutoff)).length,
       acc.2 ++ page.filter (shouldDelete db cutoff)) := by
  induction page generalizing acc with
  | nil => simp [processPage]
  | cons k ks ih =>
    simp only [processPage, List.foldl_cons] at *
    by_cases hk : shouldDelete db cutoff k
    · simp only [if_pos hk, List.filter_cons_of_pos hk, ih]
      rw [Prod.ext_iff]
      refine ⟨by simp; omega, by simp⟩
    · simp only [if_neg hk, List.filter_cons_of_neg hk, ih]

theorem deleteOldBackups_eq (pfx : Option JStr) (db folder : JStr)
    (r : Nat) (now : Int) (pages : List (List JStr)) :
    deleteOldBackups pfx db folder r now pages =
      ((pages.flatten.filter (shouldDelete db (now - r * 86400))).length,
       pages.flatten.filter (shouldDelete db (now - r * 86400))) := by
  show pages.foldl (processPage db (now - r * 86400)) (0, []) = _
  have key : ∀ (acc : Nat × List JStr),
      pages.foldl (processPage db (now - r * 86400)) acc =
        (acc.1 + (pages.flatten.filter (shouldDelete db (now - r * 86400))).length,
         acc.2 ++ pages.flatten.filter (shouldDelete db (now - r * 86400))) := by
    induction pages with
    | nil => intro acc; simp
    | cons p ps ih =>
      intro acc
      simp only [List.foldl_cons, ih, processPage_eq, List.flatten_cons,
        List.filter_append, List.length_append, List.append_assoc]
      rw [Prod.ext_iff]
      refine ⟨by simp; omega, by simp⟩
  simpa using key (0, [])

/-! ## Orchestrator loop characterization -/

theorem runLoop_eq (g : RunEnv) (items : List (DbConfig × DbEnv))
    (acc : List BackupResult) :
    runLoop g items acc = acc ++ items.map (fun it => processDb g it.1 it.2) := by
  induction items generalizing acc with
  | nil => simp [runLoop]
  | cons it rest ih => simp [runLoop, ih]

/-! ## Claim C3: per-database isolation, result order, exit code -/

/-- C3: the orchestrator attempts every configured database exactly once,
in list order, producing one BackupResult per config in the same order;
an error thrown while processing one database is caught and recorded as
that database's failed result (processing of the others is unaffected,
being a pointwise map); and the exit code is 0 exactly when every result
is a success. -/
theorem runBackups_isolation_order_exit (g : RunEnv)
    (items : List (DbConfig × DbEnv)) :
    runBackupsResults g items = items.map (fun it => processDb g it.1 it.2)
    ∧ (runBackupsResults g items).map (fun r => r.database) =
        items.map (fun it => it.1.name)
    ∧ (∀ cfg env e, backupSteps g cfg env = .error e →
        processDb g cfg env =
          ⟨cfg.name, false, none, some e, none⟩)
    ∧ (runBackupsExitCode g items = 0 ↔
        ∀ r ∈ runBackupsResults g items, r.success = true) := by
  have hdb : ∀ cfg env, (processDb g cfg env).database = cfg.name := by
    intro cfg env
    unfold processDb
    cases backupSteps g cfg env with
    | ok v => cases v; rfl
    | error e => rfl
  refine ⟨runLoop_eq g items [], ?_, ?_, ?_⟩
  · rw [runBackupsResults, runLoop_eq, List.nil_append, List.map_map]
    exact List.map_congr_left (fun it _ => hdb it.1 it.2)
  · intro cfg env e he
    simp [processDb, he]
  · rw [runBackupsExitCode]
    by_cases h : (runBackupsResults g items).all (fun r => r.success)
    · rw [if_pos h]
      simp only [List.all_eq_true] at h
      exact iff_of_true rfl h
    · rw [if_neg h]
      simp only [List.all_eq_true] at h
      exact iff_of_false (by omega) h

/-- Witness for C3 at a concrete two-database run: the first connection
string has no user-password-host part, so its parse throws and the result
is the recorded failure. -/
theorem runBackups_isolation_order_exit_witness :
    processDb ⟨⟨2024, 3, 1, 0, 0, 0⟩, 0, none⟩
        ⟨js "bad", js "postgres://nohost", none, 30⟩
        ⟨.ok 16, ⟨[], 0, false⟩, fun _ key => .ok key, .ok []⟩ =
      ⟨js "bad", false, none, some .typeError, none⟩ :=
  (runBackups_isolation_order_exit ⟨⟨2024, 3, 1, 0, 0, 0⟩, 0, none⟩ []).2.2.1
    ⟨js "bad", js "postgres://nohost", none, 30⟩
    ⟨.ok 16, ⟨[], 0, false⟩, fun _ key => .ok key, .ok []⟩
    .typeError (by rfl)

/-! ## Claim C4: strict retention cutoff boundary -/

/-- C4: with the clock fixed at 2024-03-01T00:00:00Z and retentionDays 30,
the object timestamped 31 days earlier (2024-01-30) is deleted and
counted, while the objects timestamped exactly 30 days earlier
(2024-01-31) and 29 days earlier (2024-02-01) are both retained: the
comparison against `now - retentionDays` is strict. -/
theorem retention_boundary_strict :
    deleteOldBackups none (js "db") [] 30 (toEpochSeconds ⟨2024, 3, 1, 0, 0, 0⟩)
      [[js "db_20240130_000000.dump", js "db_20240131_000000.dump",
        js "db_20240201_000000.dump"]] =
      (1, [js "db_20240130_000000.dump"])
    ∧ keyTimestamp (js "db") (js "db_20240130_000000.dump") =
        some (toEpochSeconds ⟨2024, 3, 1, 0, 0, 0⟩ - 31 * 86400)
    ∧ keyTimestamp (js "db") (js "db_20240131_000000.dump") =
        some (toEpochSeconds ⟨2024, 3, 1, 0, 0, 0⟩ - 30 * 86400)
    ∧ keyTimestamp (js "db") (js "db_20240201_000000.dump") =
        some (toEpochSeconds ⟨2024, 3, 1, 0, 0, 0⟩ - 29 * 86400) := by
  refine ⟨by rfl, by decide, by decide, by decide⟩

/-! ## Claim C2: a failed dump subprocess is not surfaced (code bug) -/

/-- C2 exhibit: the dump subprocess exits with code 1 after emitting
bytes, the upload of the truncated stream succeeds, and the database's
BackupResult nevertheless reports success.  In `createDumpStream` the
`exit` listener only logs, so no failure ever reaches the enclosing
transfer — the code does the opposite of the specified behaviour. -/
theorem dump_failure_not_surfaced :
    (⟨[[80, 71]], 1, false⟩ : DumpProc).exitCode ≠ 0
    ∧ (⟨[[80, 71]], 1, false⟩ : DumpProc).stdoutChunks ≠ []
    ∧ createDumpStream ⟨[[80, 71]], 1, false⟩ = [[80, 71]]
    ∧ (processDb ⟨⟨2024, 3, 1, 0, 0, 0⟩, 0, none⟩
        ⟨js "db", js "postgres://u:p@h:5432/db", none, 30⟩
        ⟨.ok 16, ⟨[[80, 71]], 1, false⟩, fun _ key => .ok key, .ok []⟩).success
      = true := by
  refine ⟨by decide, by decide, by rfl, by rfl⟩

/-! ## Claim C5: retention matching is name-scoped -/

/-- C5: when enforcing retention for database name `db`, every deleted key
has a trailing file name the end-anchored pattern
`db_(8 digits)_(6 digits).dump` accepts, the returned count is exactly
the number of deleted keys, and the foreign object
`other_20240101_000000.dump` is never deleted (hence never counted) when
enforcing retention for database `db`. -/
theorem retention_name_scoped (pfx : Option JStr) (db folder : JStr)
    (r : Nat) (now : Int) (pages : List (List JStr)) :
    (∀ key ∈ (deleteOldBackups pfx db folder r now pages).2,
       firstMatch db (lastSeg key) ≠ none)
    ∧ (deleteOldBackups pfx db folder r now pages).1 =
        (deleteOldBackups pfx db folder r now pages).2.length
    ∧ js "other_20240101_000000.dump" ∉
        (deleteOldBackups pfx (js "db") folder r now pages).2 := by
  refine ⟨?_, ?_, ?_⟩
  · intro key hk
    rw [deleteOldBackups_eq] at hk
    have hsd := List.of_mem_filter hk
    rw [shouldDelete] at hsd
    by_cases hfn : lastSeg key = []
    · rw [if_pos hfn] at hsd; exact absurd hsd (by simp)
    · rw [if_neg hfn] at hsd
      intro hnone
      rw [hnone] at hsd
      exact absurd hsd (by simp)
  · rw [deleteOldBackups_eq]
  · intro hk
    rw [deleteOldBackups_eq] at hk
    have hsd := List.of_mem_filter hk
    have : shouldDelete (js "db") (now - r * 86400)
        (js "other_20240101_000000.dump") = false := by
      rw [shouldDelete]
      have h1 : lastSeg (js "other_20240101_000000.dump") =
          js "other_20240101_000000.dump" := by decide
      have h2 : firstMatch (js "db") (js "other_20240101_000000.dump") = none := by
        decide
      rw [h1, if_neg (by decide), h2]
    rw [this] at hsd
    exact absurd hsd (by simp)

/-- Witness for C5 on a concrete listing: of an expired foreign object and
an expired own object, only the own object is deleted and counted. -/
theorem retention_name_scoped_witness :
    deleteOldBackups none (js "db") [] 30 (toEpochSeconds ⟨2024, 3, 1, 0, 0, 0⟩)
        [[js "other_20240101_000000.dump", js "db_20200101_000000.dump"]] =
      (1, [js "db_20200101_000000.dump"])
    ∧ js "other_20240101_000000.dump" ∉
        (deleteOldBackups none (js "db") [] 30
          (toEpochSeconds ⟨2024, 3, 1, 0, 0, 0⟩)
          [[js "other_20240101_000000.dump", js "db_20200101_000000.dump"]]).2 :=
  ⟨by rfl,
   (retention_name_scoped none (js "db") [] 30
      (toEpochSeconds ⟨2024, 3, 1, 0, 0, 0⟩)
      [[js "other_20240101_000000.dump", js "db_20200101_000000.dump"]]).2.2⟩

/-! ## Claim C6: pagination is exhausted -/

/-- C6: the retention loop follows continuation pages until the listing is
exhausted — the deleted keys are exactly the matching expired keys of the
concatenation of all pages, with the count equal to their number — and in
a concrete two-page listing whose only matching expired object sits on
page 2, that object is deleted and counted. -/
theorem retention_pagination_exhaustive (pfx : Option JStr) (db folder : JStr)
    (r : Nat) (now : Int) (pages : List (List JStr)) :
    deleteOldBackups pfx db folder r now pages =
      ((pages.flatten.filter (shouldDelete db (now - r * 86400))).length,
       pages.flatten.filter (shouldDelete db (now - r * 86400)))
    ∧ deleteOldBackups none (js "db") [] 30
        (toEpochSeconds ⟨2024, 3, 1, 0, 0, 0⟩)
        [[js "db_20240229_000000.dump"], [js "db_20240101_000000.dump"]] =
      (1, [js "db_20240101_000000.dump"]) :=
  ⟨deleteOldBackups_eq pfx db folder r now pages, by rfl⟩

/-! ## Claim C7: no doubled separators in generated keys -/

theorem digitChar_toNat (k : Nat) (h : k < 10) :
    (digitChar k).toNat = 48 + k := by
  interval_cases k <;> decide

theorem digitChar_mod_ne_slash (n : Nat) : digitChar (n % 10) ≠ '/' := by
  intro he
  have h10 : n % 10 < 10 := Nat.mod_lt _ (by norm_num)
  have ht := congrArg Char.toNat he
  rw [digitChar_toNat _ h10] at ht
  have h47 : ('/').toNat = 47 := rfl
  omega

theorem not_slash_of_mem_renderTs (c : Char) (dt : DateTime)
    (h : c ∈ renderTs dt) : c ≠ '/' := by
  intro he
  subst he
  simp only [renderTs, pad4, pad2, List.mem_append, List.mem_cons,
    List.not_mem_nil, or_false] at h
  have hd : ∀ n : Nat, ('/' = digitChar (n % 10)) = False :=
    fun n => eq_false (fun e => digitChar_mod_ne_slash n e.symm)
  simp only [hd, false_or, or_false] at h
  exact absurd h (by decide)

theorem hasDoubleSlash_append (a l : JStr) (h : ∀ c ∈ a, c ≠ '/') :
    hasDoubleSlash (a ++ l) = hasDoubleSlash l := by
  induction a with
  | nil => rfl
  | cons x xs ih =>
    have hx : x ≠ '/' := h x (by simp)
    have hxs : ∀ c ∈ xs, c ≠ '/' := fun c hc => h c (by simp [hc])
    simp only [List.cons_append]
    cases hxy : xs ++ l with
    | nil =>
      have hxs0 : xs = [] := by cases xs <;> simp_all
      have hl0 : l = [] := by subst hxs0; simpa using hxy
      subst hxs0; subst hl0
      rfl
    | cons y ys =>
      show ((x = '/' && y = '/') || hasDoubleSlash (y :: ys)) = hasDoubleSlash l
      simp only [hx, decide_eq_false, Bool.false_and, Bool.false_or]
      rw [← hxy]
      exact ih hxs

theorem hasDoubleSlash_eq_false (l : JStr) (h : ∀ c ∈ l, c ≠ '/') :
    hasDoubleSlash l = false := by
  have := hasDoubleSlash_append l [] h
  simpa using this

theorem hasDoubleSlash_slash_cons (l : JStr) (h : l.head? ≠ some '/') :
    hasDoubleSlash ('/' :: l) = hasDoubleSlash l := by
  cases l with
  | nil => rfl
  | cons y ys =>
    have hy : y ≠ '/' := by
      intro e
      exact h (by rw [e]; rfl)
    show ((('/' : Char) = '/' && y = '/') || hasDoubleSlash (y :: ys)) =
      hasDoubleSlash (y :: ys)
    simp [hy]


theorem hasDS_path_helper (a b name : JStr) (tz : Int) (now : DateTime)
    (ha : ∀ c ∈ a, c ≠ '/') (hb : ∀ c ∈ b, c ≠ '/') (hn : ∀ c ∈ name, c ≠ '/')
    (useA useB : Bool) (hae : useA = true → a ≠ []) (hbe : useB = true → b ≠ []) :
    hasDoubleSlash ((([] ++ (if useA then a ++ ['/'] else [])) ++
      (if useB then b ++ ['/'] else [])) ++
      (name ++ '_' :: (renderTs (shiftTz tz now) ++ js ".dump"))) = false := by
  have hdump : ∀ c ∈ js ".dump", c ≠ '/' := by decide
  have hfile : ∀ c ∈ name ++ '_' :: (renderTs (shiftTz tz now) ++ js ".dump"),
      c ≠ '/' := by
    intro c hc
    simp only [List.mem_append, List.mem_cons] at hc
    rcases hc with hc | hc | hc | hc
    · exact hn c hc
    · subst hc; decide
    · exact not_slash_of_mem_renderTs c _ hc
    · exact hdump c hc
  have hfileDS : hasDoubleSlash
      (name ++ '_' :: (renderTs (shiftTz tz now) ++ js ".dump")) = false :=
    hasDoubleSlash_eq_false _ hfile
  have hfileHead : (name ++ '_' :: (renderTs (shiftTz tz now) ++ js ".dump")).head?
      ≠ some '/' := by
    cases name with
    | nil => simp
    | cons x xs =>
      simp only [List.cons_append, List.head?_cons]
      intro e
      exact hn x (by simp) (by injection e)
  cases useA with
  | false =>
    cases useB with
    | false => simpa using hfileDS
    | true =>
      obtain ⟨g, gs, rfl⟩ : ∃ g gs, b = g :: gs := by
        cases b with
        | nil => exact absurd rfl (hbe rfl)
        | cons g gs => exact ⟨g, gs, rfl⟩
      simp only [Bool.false_eq_true, eq_self_iff_true,
        if_true, if_false, List.nil_append, List.append_nil,
        List.append_assoc, List.cons_append, List.singleton_append]
      rw [show (g :: (gs ++ '/' :: (name ++ '_' ::
            (renderTs (shiftTz tz now) ++ js ".dump")))) =
          ((g :: gs) ++ '/' :: (name ++ '_' ::
            (renderTs (shiftTz tz now) ++ js ".dump"))) from by simp]
      rw [hasDoubleSlash_append _ _ hb, hasDoubleSlash_slash_cons _ hfileHead]
      exact hfileDS
  | true =>
    obtain ⟨q, qs, rfl⟩ : ∃ q qs, a = q :: qs := by
      cases a with
      | nil => exact absurd rfl (hae rfl)
      | cons q qs => exact ⟨q, qs, rfl⟩
    cases useB with
    | false =>
      simp only [Bool.false_eq_true, eq_self_iff_true,
        if_true, if_false, List.nil_append, List.append_nil,
        List.append_assoc, List.cons_append, List.singleton_append]
      rw [show (q :: (qs ++ '/' :: (name ++ '_' ::
            (renderTs (shiftTz tz now) ++ js ".dump")))) =
          ((q :: qs) ++ '/' :: (name ++ '_' ::
            (renderTs (shiftTz tz now) ++ js ".dump"))) from by simp]
      rw [hasDoubleSlash_append _ _ ha, hasDoubleSlash_slash_cons _ hfileHead]
      exact hfileDS
    | true =>
      obtain ⟨g, gs, rfl⟩ : ∃ g gs, b = g :: gs := by
        cases b with
        | nil => exact absurd rfl (hbe rfl)
        | cons g gs => exact ⟨g, gs, rfl⟩
      simp only [Bool.false_eq_true, eq_self_iff_true,
        if_true, if_false, List.nil_append, List.append_nil,
        List.append_assoc, List.cons_append, List.singleton_append]
      rw [show (q :: (qs ++ '/' :: (g :: (gs ++ '/' :: (name ++ '_' ::
            (renderTs (shiftTz tz now) ++ js ".dump")))))) =
          ((q :: qs) ++ '/' :: ((g :: gs) ++ '/' :: (name ++ '_' ::
            (renderTs (shiftTz tz now) ++ js ".dump")))) from by simp]
      rw [hasDoubleSlash_append _ _ ha]
      rw [hasDoubleSlash_slash_cons _ (by
        simp only [List.cons_append, List.head?_cons]
        intro e
        exact hb g (by simp) (by injection e))]
      rw [hasDoubleSlash_append _ _ hb, hasDoubleSlash_slash_cons _ hfileHead]
      exact hfileDS

/-- C7: `createS3Path` inserts a separator only where a segment is
present — with global prefix `p`, folder `f` and name `db` the key is
exactly `p/f/db_<ts>.dump`; with no prefix and no folder it is exactly
`db_<ts>.dump`; and for slash-free segments the produced key never
contains a doubled `/`. -/
theorem createS3Path_no_double_slash :
    (∀ (tz : Int) (now : DateTime),
      createS3Path (some (js "p")) tz now (js "db") (some (js "f")) =
        js "p/f/db_" ++ renderTs (shiftTz tz now) ++ js ".dump")
    ∧ (∀ (tz : Int) (now : DateTime),
      createS3Path none tz now (js "db") none =
        js "db_" ++ renderTs (shiftTz tz now) ++ js ".dump")
    ∧ ∀ (pfx folder : Option JStr) (name : JStr) (tz : Int) (now : DateTime),
        (∀ c ∈ pfx.getD [], c ≠ '/') → (∀ c ∈ folder.getD [], c ≠ '/') →
        (∀ c ∈ name, c ≠ '/') →
        hasDoubleSlash (createS3Path pfx tz now name folder) = false := by
  refine ⟨fun tz now => rfl, fun tz now => rfl, ?_⟩
  intro pfx folder name tz now hp hf hn
  rcases pfx with _ | p0
  · rcases folder with _ | f0
    · exact hasDS_path_helper [] [] name tz now (by simp) (by simp) hn
        false false (fun h => nomatch h) (fun h => nomatch h)
    · cases f0 with
      | nil =>
        exact hasDS_path_helper [] [] name tz now (by simp) (by simp) hn
          false false (fun h => nomatch h) (fun h => nomatch h)
      | cons g gs =>
        exact hasDS_path_helper [] (g :: gs) name tz now (by simp) hf hn
          false true (fun h => nomatch h) (fun _ => by simp)
  · cases p0 with
    | nil =>
      rcases folder with _ | f0
      · exact hasDS_path_helper [] [] name tz now (by simp) (by simp) hn
          false false (fun h => nomatch h) (fun h => nomatch h)
      · cases f0 with
        | nil =>
          exact hasDS_path_helper [] [] name tz now (by simp) (by simp) hn
            false false (fun h => nomatch h) (fun h => nomatch h)
        | cons g gs =>
          exact hasDS_path_helper [] (g :: gs) name tz now (by simp) hf hn
            false true (fun h => nomatch h) (fun _ => by simp)
    | cons q qs =>
      rcases folder with _ | f0
      · exact hasDS_path_helper (q :: qs) [] name tz now hp (by simp) hn
          true false (fun _ => by simp) (fun h => nomatch h)
      · cases f0 with
        | nil =>
          exact hasDS_path_helper (q :: qs) [] name tz now hp (by simp) hn
            true false (fun _ => by simp) (fun h => nomatch h)
        | cons g gs =>
          exact hasDS_path_helper (q :: qs) (g :: gs) name tz now hp hf hn
            true true (fun _ => by simp) (fun _ => by simp)

/-- Witness for C7 at a concrete prefix, folder, name and instant. -/
theorem createS3Path_no_double_slash_witness :
    createS3Path (some (js "p")) 0 ⟨2024, 3, 1, 0, 0, 0⟩ (js "db")
        (some (js "f")) = js "p/f/db_20240301_000000.dump"
    ∧ hasDoubleSlash (createS3Path (some (js "p")) 0 ⟨2024, 3, 1, 0, 0, 0⟩
        (js "db") (some (js "f"))) = false :=
  ⟨(createS3Path_no_double_slash.1 0 ⟨2024, 3, 1, 0, 0, 0⟩).trans (by decide),
   createS3Path_no_double_slash.2.2 (some (js "p")) (some (js "f")) (js "db")
     0 ⟨2024, 3, 1, 0, 0, 0⟩ (by decide) (by decide) (by decide)⟩

/-! ## Claims C8 and C10: connection-string parsing -/

theorem take11_append (rest : JStr) :
    (js "postgres://" ++ rest).take 11 = js "postgres://" := by
  have h : (js "postgres://").length = 11 := rfl
  rw [← h, List.take_left]

theorem drop11_append (rest : JStr) :
    (js "postgres://" ++ rest).drop 11 = rest := by
  have h : (js "postgres://").length = 11 := rfl
  rw [← h, List.drop_left]

theorem parse_with_at (up rest : JStr) (h : '@' ∉ up) :
    parseConnectionString (js "postgres://" ++ (up ++ '@' :: rest)) =
      .ok (mkDetails up ((splitOnChar '@' rest).headD [])) := by
  cases hl : splitOnChar '@' rest with
  | nil => exact absurd hl (splitOnChar_ne_nil _ _)
  | cons hd tl =>
    simp only [parseConnectionString, take11_append, drop11_append,
      eq_self_iff_true, if_true]
    rw [splitOnChar_append_cons '@' up rest h, hl]
    simp only [List.getElem?_cons_succ, List.getElem?_cons_zero,
      List.headD_cons, mkDetails]

theorem parse_error_of_no_at (s : JStr)
    (h : '@' ∉ (if s.take 11 = js "postgres://" then s.drop 11 else s)) :
    parseConnectionString s = .error .typeError := by
  have h1 := splitOnChar_not_mem '@' _ h
  simp only [parseConnectionString, h1]
  rfl

theorem parse_ok_of_at (s : JStr)
    (h : '@' ∈ (if s.take 11 = js "postgres://" then s.drop 11 else s)) :
    ∃ d, parseConnectionString s = .ok d := by
  have hlen : 1 < (splitOnChar '@'
      (if s.take 11 = js "postgres://" then s.drop 11 else s)).length := by
    rw [splitOnChar_length]
    have := List.count_pos_iff.mpr h
    omega
  have h2 : (splitOnChar '@'
      (if s.take 11 = js "postgres://" then s.drop 11 else s))[1]? =
      some ((splitOnChar '@'
        (if s.take 11 = js "postgres://" then s.drop 11 else s))[1]) :=
    List.getElem?_eq_getElem hlen
  simp only [parseConnectionString, h2]
  exact ⟨_, rfl⟩

/-- C8 counterexample: connection strings whose required `user:pass` part
is missing entirely, or whose password segment is missing, parse without
any failure — the claim that such inputs fail is false on the code. -/
theorem missing_credentials_still_parse :
    parseConnectionString (js "postgres://@host:5432/db") =
      .ok ⟨[], none, js "host", some 5432, js "db"⟩
    ∧ parseConnectionString (js "postgres://user@host:5432/db") =
      .ok ⟨js "user", none, js "host", some 5432, js "db"⟩ :=
  ⟨by rfl, by rfl⟩

/-- C8 amended: `parseConnectionString` throws precisely when the string,
after scheme stripping, contains no `@` separator — and the failure is
the generic runtime TypeError of `undefined.split`, there being no
dedicated connection-string error.  With an `@` present, missing user,
password or host segments yield empty or undefined fields, not a
failure. -/
theorem parse_fails_iff_no_at (s : JStr) :
    (∃ e, parseConnectionString s = .error e) ↔
      '@' ∉ (if s.take 11 = js "postgres://" then s.drop 11 else s) := by
  constructor
  · rintro ⟨e, he⟩ hm
    rcases parse_ok_of_at s hm with ⟨d, hd⟩
    rw [hd] at he
    exact Except.noConfusion he
  · intro h
    exact ⟨.typeError, parse_error_of_no_at s h⟩

/-- Witness for C8 (amended) on a concrete at-free string. -/
theorem parse_fails_iff_no_at_witness :
    ∃ e, parseConnectionString (js "postgres://hostonly:5432/db") = .error e :=
  (parse_fails_iff_no_at (js "postgres://hostonly:5432/db")).mpr (by decide)

/-- C10: when the userinfo holds more than one `:`, the password is only
the substring between the first and second `:`; everything after the
second `:` is dropped and the parse result is identical to that of the
same URI with the extra material removed. -/
theorem password_truncated_at_second_colon
    (u p1 p2 rest : JStr)
    (hu1 : ':' ∉ u) (hu2 : '@' ∉ u) (hp1 : ':' ∉ p1) (hp2 : '@' ∉ p1)
    (hq2 : '@' ∉ p2) :
    parseConnectionString
        (js "postgres://" ++ ((u ++ ':' :: (p1 ++ ':' :: p2)) ++ '@' :: rest)) =
      parseConnectionString (js "postgres://" ++ ((u ++ ':' :: p1) ++ '@' :: rest))
    ∧ ∃ d, parseConnectionString
        (js "postgres://" ++ ((u ++ ':' :: (p1 ++ ':' :: p2)) ++ '@' :: rest)) =
          .ok d ∧ d.username = u ∧ d.password = some p1 := by
  have hA : '@' ∉ (u ++ ':' :: (p1 ++ ':' :: p2)) := by
    simp only [List.mem_append, List.mem_cons, not_or]
    exact ⟨hu2, by decide, hp2, by decide, hq2⟩
  have hB : '@' ∉ (u ++ ':' :: p1) := by
    simp only [List.mem_append, List.mem_cons, not_or]
    exact ⟨hu2, by decide, hp2⟩
  rw [parse_with_at _ _ hA, parse_with_at _ _ hB]
  have hsplitA : splitOnChar ':' (u ++ ':' :: (p1 ++ ':' :: p2)) =
      u :: p1 :: splitOnChar ':' p2 := by
    rw [splitOnChar_append_cons ':' u _ hu1,
      splitOnChar_append_cons ':' p1 _ hp1]
  have hsplitB : splitOnChar ':' (u ++ ':' :: p1) = [u, p1] := by
    rw [splitOnChar_append_cons ':' u _ hu1, splitOnChar_not_mem ':' p1 hp1]
  refine ⟨?_, ⟨_, rfl, ?_, ?_⟩⟩
  · simp [mkDetails, hsplitA, hsplitB]
  · simp [mkDetails, hsplitA]
  · simp [mkDetails, hsplitA]

/-- Witness for C10 at a concrete URI with password `a:b`. -/
theorem password_truncated_at_second_colon_witness :
    parseConnectionString (js "postgres://" ++
        ((js "user" ++ ':' :: (js "a" ++ ':' :: js "b")) ++ '@' :: js "h:1/d")) =
      parseConnectionString (js "postgres://" ++
        ((js "user" ++ ':' :: js "a") ++ '@' :: js "h:1/d")) :=
  (password_truncated_at_second_colon (js "user") (js "a") (js "b") (js "h:1/d")
    (by decide) (by decide) (by decide) (by decide) (by decide)).1

/-! ## Claim C1: key timestamp generation and retention parsing -/

/-- C1 counterexample: the generation side renders the machine's local
time (date-fns `format`), the parsing side reconstructs UTC (`Z` suffix),
so on a machine one hour east of UTC (offset 3600 s) a key produced at
the instant 2024-07-01T12:00:00Z parses back to that instant plus one
hour — the claimed exact UTC round-trip fails. -/
theorem key_timestamp_roundtrip_counterexample :
    keyTimestamp (js "db")
        (createS3Path none 3600 ⟨2024, 7, 1, 12, 0, 0⟩ (js "db") none) =
      some (toEpochSeconds ⟨2024, 7, 1, 12, 0, 0⟩ + 3600)
    ∧ keyTimestamp (js "db")
        (createS3Path none 3600 ⟨2024, 7, 1, 12, 0, 0⟩ (js "db") none) ≠
      some (toEpochSeconds ⟨2024, 7, 1, 12, 0, 0⟩) := by
  refine ⟨by decide, by decide⟩

theorem shiftTz_zero (dt : DateTime) : shiftTz 0 dt = dt := by
  simp [shiftTz]

theorem isDigitCh_digitChar (k : Nat) (h : k < 10) :
    isDigitCh (digitChar k) = true := by
  interval_cases k <;> decide

theorem pad2_all_digits (n : Nat) : (pad2 n).all isDigitCh = true := by
  simp only [pad2, List.all_cons, List.all_nil, Bool.and_true]
  rw [isDigitCh_digitChar _ (Nat.mod_lt _ (by norm_num)),
    isDigitCh_digitChar _ (Nat.mod_lt _ (by norm_num))]
  rfl

theorem pad4_all_digits (n : Nat) : (pad4 n).all isDigitCh = true := by
  simp only [pad4, List.all_cons, List.all_nil, Bool.and_true]
  rw [isDigitCh_digitChar _ (Nat.mod_lt _ (by norm_num)),
    isDigitCh_digitChar _ (Nat.mod_lt _ (by norm_num)),
    isDigitCh_digitChar _ (Nat.mod_lt _ (by norm_num)),
    isDigitCh_digitChar _ (Nat.mod_lt _ (by norm_num))]
  rfl

theorem num_pad4 (y : Nat) (h : y < 10000) :
    (pad4 y).foldl (fun a c => a * 10 + (c.toNat - 48)) 0 = y := by
  simp only [pad4, List.foldl_cons, List.foldl_nil]
  rw [digitChar_toNat _ (Nat.mod_lt _ (by norm_num)),
    digitChar_toNat _ (Nat.mod_lt _ (by norm_num)),
    digitChar_toNat _ (Nat.mod_lt _ (by norm_num)),
    digitChar_toNat _ (Nat.mod_lt _ (by norm_num))]
  omega

theorem num_pad2 (n : Nat) (h : n < 100) :
    (pad2 n).foldl (fun a c => a * 10 + (c.toNat - 48)) 0 = n := by
  simp only [pad2, List.foldl_cons, List.foldl_nil]
  rw [digitChar_toNat _ (Nat.mod_lt _ (by norm_num)),
    digitChar_toNat _ (Nat.mod_lt _ (by norm_num))]
  omega

theorem tryMatchAt_construct (db d8 d6 : JStr)
    (h8 : d8.length = 8) (h8d : d8.all isDigitCh = true)
    (h6 : d6.length = 6) (h6d : d6.all isDigitCh = true) :
    tryMatchAt db (db ++ '_' :: (d8 ++ '_' :: (d6 ++ js ".dump"))) =
      some (d8, d6) := by
  rw [tryMatchAt]
  rw [show (db ++ '_' :: (d8 ++ '_' :: (d6 ++ js ".dump"))).take db.length = db
    from List.take_left db _]
  rw [if_pos rfl]
  rw [show (db ++ '_' :: (d8 ++ '_' :: (d6 ++ js ".dump"))).drop db.length =
    '_' :: (d8 ++ '_' :: (d6 ++ js ".dump")) from List.drop_left db _]
  have ht8 : (d8 ++ '_' :: (d6 ++ js ".dump")).take 8 = d8 := by
    rw [← h8]; exact List.take_left d8 _
  have hd8 : (d8 ++ '_' :: (d6 ++ js ".dump")).drop 8 = '_' :: (d6 ++ js ".dump") := by
    rw [← h8]; exact List.drop_left d8 _
  have ht6 : (d6 ++ js ".dump").take 6 = d6 := by
    rw [← h6]; exact List.take_left d6 _
  have hd6 : (d6 ++ js ".dump").drop 6 = js ".dump" := by
    rw [← h6]; exact List.drop_left d6 _
  simp only [ht8, hd8, ht6, hd6, h8, h6, h8d, h6d]
  simp

theorem firstMatch_of_tryMatchAt (db s : JStr) (r : JStr × JStr)
    (hs : s ≠ []) (h : tryMatchAt db s = some r) :
    firstMatch db s = some r := by
  cases s with
  | nil => exact absurd rfl hs
  | cons x xs =>
    rw [firstMatch, h]

theorem getLastD_indep {α : Type} (l : List α) (d1 d2 : α) (h : l ≠ []) :
    l.getLastD d1 = l.getLastD d2 := by
  rw [List.getLastD_eq_getLast?, List.getLastD_eq_getLast?]
  cases hl : l.getLast? with
  | none => exact absurd (List.getLast?_eq_none_iff.mp hl) h
  | some x => rfl

theorem splitOnChar_cons_self (c : Char) (l : JStr) :
    splitOnChar c (c :: l) = [] :: splitOnChar c l := by
  simp only [splitOnChar]
  cases h : splitOnChar c l with
  | nil => exact absurd h (splitOnChar_ne_nil c l)
  | cons s ss => simp

theorem lastSeg_no_slash (l : JStr) (h : '/' ∉ l) : lastSeg l = l := by
  rw [lastSeg, splitOnChar_not_mem '/' l h]
  rfl

theorem lastSeg_append_slash (a b : JStr) :
    lastSeg (a ++ '/' :: b) = lastSeg b := by
  induction a with
  | nil =>
    rw [List.nil_append, lastSeg, splitOnChar_cons_self, List.getLastD_cons]
    rfl
  | cons x xs ih =>
    rw [List.cons_append, lastSeg]
    simp only [splitOnChar]
    cases hr : splitOnChar '/' (xs ++ '/' :: b) with
    | nil => exact absurd hr (splitOnChar_ne_nil _ _)
    | cons s ss =>
      have hss : ss ≠ [] := by
        have hlen := splitOnChar_length '/' (xs ++ '/' :: b)
        rw [hr] at hlen
        have hcnt : 0 < (xs ++ '/' :: b).count '/' :=
          List.count_pos_iff.mpr (by simp)
        simp only [List.length_cons] at hlen
        intro he
        rw [he] at hlen
        simp only [List.length_nil, List.length_cons] at hlen
        omega
      rw [lastSeg, hr] at ih
      show (if x = '/' then [] :: s :: ss else (x :: s) :: ss).getLastD [] =
        lastSeg b
      by_cases hx : x = '/'
      · rw [if_pos hx, List.getLastD_cons]
        exact ih
      · rw [if_neg hx, List.getLastD_cons]
        rw [List.getLastD_cons] at ih
        rw [← ih]
        exact getLastD_indep _ _ _ hss

theorem lastSeg_segments (a b f : JStr) (hf : '/' ∉ f) (useA useB : Bool) :
    lastSeg ((([] ++ (if useA then a ++ ['/'] else [])) ++
      (if useB then b ++ ['/'] else [])) ++ f) = f := by
  cases useA <;> cases useB <;>
    simp only [Bool.false_eq_true, eq_self_iff_true, if_true, if_false,
      List.nil_append, List.append_nil, List.append_assoc,
      List.cons_append, List.singleton_append]
  · exact lastSeg_no_slash f hf
  · rw [lastSeg_append_slash]
    exact lastSeg_no_slash f hf
  · rw [lastSeg_append_slash]
    exact lastSeg_no_slash f hf
  · rw [lastSeg_append_slash, lastSeg_append_slash]
    exact lastSeg_no_slash f hf

theorem regexLiteral_no_slash (l : JStr) (h : regexLiteralName l) : '/' ∉ l := by
  intro hm
  rcases h '/' hm with h1 | h1 | h1 | h1 | h1
  · have : ('/').toNat = 47 := rfl
    omega
  · have : ('/').toNat = 47 := rfl
    omega
  · have : ('/').toNat = 47 := rfl
    omega
  · exact absurd h1 (by decide)
  · exact absurd h1 (by decide)

theorem parseBackupDate_render (dt : DateTime) (hc : ClockDateTime dt)
    (hy : dt.year ≤ 9999) :
    parseBackupDate (pad4 dt.year ++ (pad2 dt.month ++ pad2 dt.day))
        (pad2 dt.hour ++ (pad2 dt.minute ++ pad2 dt.second)) =
      some (toEpochSeconds dt) := by
  obtain ⟨h1, h2, h3, h4, h5, h6, h7, h8⟩ := hc
  have hmon : dt.month < 100 := by omega
  have hday : dt.day < 100 := by
    have : daysInMonth dt.year dt.month ≤ 31 := by
      rw [daysInMonth]
      split
      · split <;> omega
      · split <;> omega
    omega
  have ht4 : (pad4 dt.year ++ (pad2 dt.month ++ pad2 dt.day)).take 4 =
      pad4 dt.year := by
    rw [show 4 = (pad4 dt.year).length from rfl]
    exact List.take_left _ _
  have hd4 : (pad4 dt.year ++ (pad2 dt.month ++ pad2 dt.day)).drop 4 =
      pad2 dt.month ++ pad2 dt.day := by
    rw [show 4 = (pad4 dt.year).length from rfl]
    exact List.drop_left _ _
  have ht2m : (pad2 dt.month ++ pad2 dt.day).take 2 = pad2 dt.month := by
    rw [show 2 = (pad2 dt.month).length from rfl]
    exact List.take_left _ _
  have hd6d : (pad4 dt.year ++ (pad2 dt.month ++ pad2 dt.day)).drop 6 =
      pad2 dt.day := by
    rw [show (pad4 dt.year ++ (pad2 dt.month ++ pad2 dt.day)) =
      ((pad4 dt.year ++ pad2 dt.month) ++ pad2 dt.day) from by
        simp [List.append_assoc]]
    rw [show 6 = (pad4 dt.year ++ pad2 dt.month).length from rfl]
    exact List.drop_left _ _
  have ht2h : (pad2 dt.hour ++ (pad2 dt.minute ++ pad2 dt.second)).take 2 =
      pad2 dt.hour := by
    rw [show 2 = (pad2 dt.hour).length from rfl]
    exact List.take_left _ _
  have hd2h : (pad2 dt.hour ++ (pad2 dt.minute ++ pad2 dt.second)).drop 2 =
      pad2 dt.minute ++ pad2 dt.second := by
    rw [show 2 = (pad2 dt.hour).length from rfl]
    exact List.drop_left _ _
  have ht2mi : (pad2 dt.minute ++ pad2 dt.second).take 2 = pad2 dt.minute := by
    rw [show 2 = (pad2 dt.minute).length from rfl]
    exact List.take_left _ _
  have hd4s : (pad2 dt.hour ++ (pad2 dt.minute ++ pad2 dt.second)).drop 4 =
      pad2 dt.second := by
    rw [show (pad2 dt.hour ++ (pad2 dt.minute ++ pad2 dt.second)) =
      ((pad2 dt.hour ++ pad2 dt.minute) ++ pad2 dt.second) from by
        simp [List.append_assoc]]
    rw [show 4 = (pad2 dt.hour ++ pad2 dt.minute).length from rfl]
    exact List.drop_left _ _
  rw [parseBackupDate]
  simp only [ht4, hd4, ht2m, hd6d, ht2h, hd2h, ht2mi, hd4s, List.drop_drop]
  rw [num_pad4 _ (by omega), num_pad2 _ hmon, num_pad2 _ hday,
    num_pad2 _ (by omega), num_pad2 _ (by omega), num_pad2 _ (by omega)]
  rw [if_pos ?valid]
  case valid =>
    exact ⟨h1, h2, h3, h4, h5, Or.inl ⟨h6, h7, h8⟩⟩

theorem keyTimestamp_createS3Path (dt : DateTime) (name : JStr)
    (pfx folder : Option JStr) (hc : ClockDateTime dt) (hy : dt.year ≤ 9999)
    (hn : regexLiteralName name) :
    keyTimestamp name (createS3Path pfx 0 dt name folder) =
      some (toEpochSeconds dt) := by
  have hslash : '/' ∉ name := regexLiteral_no_slash name hn
  have hren : renderTs dt =
      (pad4 dt.year ++ (pad2 dt.month ++ pad2 dt.day)) ++ '_' ::
        (pad2 dt.hour ++ (pad2 dt.minute ++ pad2 dt.second)) := by
    rw [renderTs]
    simp [List.append_assoc]
  have hfile : name ++ '_' :: (renderTs (shiftTz 0 dt) ++ js ".dump") =
      name ++ '_' :: ((pad4 dt.year ++ (pad2 dt.month ++ pad2 dt.day)) ++ '_' ::
        ((pad2 dt.hour ++ (pad2 dt.minute ++ pad2 dt.second)) ++ js ".dump")) := by
    rw [shiftTz_zero, hren]
    simp [List.append_assoc]
  have hfns : '/' ∉ name ++ '_' :: (renderTs (shiftTz 0 dt) ++ js ".dump") := by
    intro hm
    simp only [List.mem_append, List.mem_cons] at hm
    rcases hm with hm | hm | hm | hm
    · exact hslash hm
    · exact absurd hm (by decide)
    · exact not_slash_of_mem_renderTs '/' _ hm rfl
    · exact absurd hm (by decide)
  have hlast : lastSeg (createS3Path pfx 0 dt name folder) =
      name ++ '_' :: (renderTs (shiftTz 0 dt) ++ js ".dump") :=
    lastSeg_segments (pfx.getD []) (folder.getD []) _ hfns
      (jsTruthy pfx) (jsTruthy folder)
  have h8len : (pad4 dt.year ++ (pad2 dt.month ++ pad2 dt.day)).length = 8 := by
    simp [pad4, pad2]
  have h6len : (pad2 dt.hour ++ (pad2 dt.minute ++ pad2 dt.second)).length = 6 := by
    simp [pad2]
  have h8dig : (pad4 dt.year ++ (pad2 dt.month ++ pad2 dt.day)).all isDigitCh
      = true := by
    simp only [List.all_append, pad4_all_digits, pad2_all_digits,
      Bool.and_true, Bool.and_self]
  have h6dig : (pad2 dt.hour ++ (pad2 dt.minute ++ pad2 dt.second)).all isDigitCh
      = true := by
    simp only [List.all_append, pad2_all_digits, Bool.and_true, Bool.and_self]
  have hFM : firstMatch name
      (name ++ '_' :: ((pad4 dt.year ++ (pad2 dt.month ++ pad2 dt.day)) ++ '_' ::
        ((pad2 dt.hour ++ (pad2 dt.minute ++ pad2 dt.second)) ++ js ".dump"))) =
      some (pad4 dt.year ++ (pad2 dt.month ++ pad2 dt.day),
            pad2 dt.hour ++ (pad2 dt.minute ++ pad2 dt.second)) :=
    firstMatch_of_tryMatchAt _ _ _ (by simp)
      (tryMatchAt_construct name _ _ h8len h8dig h6len h6dig)
  simp only [keyTimestamp]
  rw [hlast, hfile, hFM]
  exact parseBackupDate_render dt hc hy

theorem char_toNat_inj (c1 c2 : Char) (h : c1.toNat = c2.toNat) : c1 = c2 := by
  have hv : c1.val = c2.val := by
    apply UInt32.ext
    simpa [Char.toNat] using h
  exact Char.ext hv

theorem jsStrLt_cons_same (c : Char) (x y : JStr) :
    jsStrLt (c :: x) (c :: y) = jsStrLt x y := by
  simp [jsStrLt]

theorem jsStrLt_append_iff (a c d : JStr) : ∀ (b : JStr),
    a.length = b.length →
    (jsStrLt (a ++ c) (b ++ d) = true ↔
      (jsStrLt a b = true ∨ (a = b ∧ jsStrLt c d = true))) := by
  induction a with
  | nil =>
    intro b hb
    have : b = [] := by
      cases b with
      | nil => rfl
      | cons y ys => simp at hb
    subst this
    simp [jsStrLt]
  | cons x xs ih =>
    intro b hb
    cases b with
    | nil => simp at hb
    | cons y ys =>
      simp only [List.length_cons, Nat.succ.injEq] at hb
      by_cases h1 : x.toNat < y.toNat
      · simp only [List.cons_append, jsStrLt, if_pos h1]
        simp
      · by_cases h2 : y.toNat < x.toNat
        · simp only [List.cons_append, jsStrLt, if_neg h1, if_pos h2]
          constructor
          · intro hc
            exact absurd hc (by simp)
          · rintro (hc | ⟨hc, _⟩)
            · exact absurd hc (by simp)
            · have : x = y := by injection hc
              subst this
              omega
        · have hxy : x = y := char_toNat_inj x y (by omega)
          subst hxy
          simp only [List.cons_append, jsStrLt_cons_same]
          rw [ih ys hb]
          constructor
          · rintro (hc | ⟨rfl, hc⟩)
            · exact Or.inl hc
            · exact Or.inr ⟨rfl, hc⟩
          · rintro (hc | ⟨he, hc⟩)
            · exact Or.inl hc
            · have : xs = ys := by injection he
              subst this
              exact Or.inr ⟨rfl, hc⟩

theorem pad2_lt_iff (m n : Nat) (hm : m < 100) (hn : n < 100) :
    (jsStrLt (pad2 m) (pad2 n) = true) ↔ m < n := by
  simp only [pad2, jsStrLt]
  rw [digitChar_toNat _ (Nat.mod_lt _ (by norm_num)),
    digitChar_toNat _ (Nat.mod_lt _ (by norm_num)),
    digitChar_toNat _ (Nat.mod_lt _ (by norm_num)),
    digitChar_toNat _ (Nat.mod_lt _ (by norm_num))]
  split_ifs <;> simp_all <;> omega

theorem pad4_lt_iff (m n : Nat) (hm : m < 10000) (hn : n < 10000) :
    (jsStrLt (pad4 m) (pad4 n) = true) ↔ m < n := by
  simp only [pad4, jsStrLt]
  rw [digitChar_toNat _ (Nat.mod_lt _ (by norm_num)),
    digitChar_toNat _ (Nat.mod_lt _ (by norm_num)),
    digitChar_toNat _ (Nat.mod_lt _ (by norm_num)),
    digitChar_toNat _ (Nat.mod_lt _ (by norm_num)),
    digitChar_toNat _ (Nat.mod_lt _ (by norm_num)),
    digitChar_toNat _ (Nat.mod_lt _ (by norm_num)),
    digitChar_toNat _ (Nat.mod_lt _ (by norm_num)),
    digitChar_toNat _ (Nat.mod_lt _ (by norm_num))]
  split_ifs <;> simp_all <;> omega

theorem pad2_inj_iff (m n : Nat) (hm : m < 100) (hn : n < 100) :
    pad2 m = pad2 n ↔ m = n := by
  constructor
  · intro h
    simp only [pad2, List.cons.injEq, and_true] at h
    obtain ⟨e1, e2⟩ := h
    have t1 := congrArg Char.toNat e1
    have t2 := congrArg Char.toNat e2
    rw [digitChar_toNat _ (Nat.mod_lt _ (by norm_num)),
      digitChar_toNat _ (Nat.mod_lt _ (by norm_num))] at t1
    rw [digitChar_toNat _ (Nat.mod_lt _ (by norm_num)),
      digitChar_toNat _ (Nat.mod_lt _ (by norm_num))] at t2
    omega
  · rintro rfl
    rfl

theorem pad4_inj_iff (m n : Nat) (hm : m < 10000) (hn : n < 10000) :
    pad4 m = pad4 n ↔ m = n := by
  constructor
  · intro h
    simp only [pad4, List.cons.injEq, and_true] at h
    obtain ⟨e1, e2, e3, e4⟩ := h
    have t1 := congrArg Char.toNat e1
    have t2 := congrArg Char.toNat e2
    have t3 := congrArg Char.toNat e3
    have t4 := congrArg Char.toNat e4
    rw [digitChar_toNat _ (Nat.mod_lt _ (by norm_num)),
      digitChar_toNat _ (Nat.mod_lt _ (by norm_num))] at t1
    rw [digitChar_toNat _ (Nat.mod_lt _ (by norm_num)),
      digitChar_toNat _ (Nat.mod_lt _ (by norm_num))] at t2
    rw [digitChar_toNat _ (Nat.mod_lt _ (by norm_num)),
      digitChar_toNat _ (Nat.mod_lt _ (by norm_num))] at t3
    rw [digitChar_toNat _ (Nat.mod_lt _ (by norm_num)),
      digitChar_toNat _ (Nat.mod_lt _ (by norm_num))] at t4
    omega
  · rintro rfl
    rfl

theorem daysInMonth_le_31 (y m : Nat) : daysInMonth y m ≤ 31 := by
  rw [daysInMonth]
  split
  · split <;> omega
  · split <;> omega

theorem renderTs_lt_iff (dt1 dt2 : DateTime)
    (h1 : ClockDateTime dt1) (h2 : ClockDateTime dt2)
    (hy1 : dt1.year ≤ 9999) (hy2 : dt2.year ≤ 9999) :
    (jsStrLt (renderTs dt1) (renderTs dt2) = true) ↔ fieldLex dt1 dt2 := by
  obtain ⟨a1, a2, a3, a4, a5, a6, a7, a8⟩ := h1
  obtain ⟨b1, b2, b3, b4, b5, b6, b7, b8⟩ := h2
  have hd1 : dt1.day < 100 := by
    have := daysInMonth_le_31 dt1.year dt1.month
    omega
  have hd2 : dt2.day < 100 := by
    have := daysInMonth_le_31 dt2.year dt2.month
    omega
  simp only [renderTs, List.append_assoc]
  rw [jsStrLt_append_iff (pad4 dt1.year) _ _ (pad4 dt2.year) rfl]
  rw [jsStrLt_append_iff (pad2 dt1.month) _ _ (pad2 dt2.month) rfl]
  rw [jsStrLt_append_iff (pad2 dt1.day) _ _ (pad2 dt2.day) rfl]
  rw [jsStrLt_cons_same]
  rw [jsStrLt_append_iff (pad2 dt1.hour) _ _ (pad2 dt2.hour) rfl]
  rw [jsStrLt_append_iff (pad2 dt1.minute) _ _ (pad2 dt2.minute) rfl]
  rw [pad4_lt_iff _ _ (by omega) (by omega),
    pad4_inj_iff _ _ (by omega) (by omega),
    pad2_lt_iff dt1.month dt2.month (by omega) (by omega),
    pad2_inj_iff dt1.month dt2.month (by omega) (by omega),
    pad2_lt_iff dt1.day dt2.day (by omega) (by omega),
    pad2_inj_iff dt1.day dt2.day (by omega) (by omega),
    pad2_lt_iff dt1.hour dt2.hour (by omega) (by omega),
    pad2_inj_iff dt1.hour dt2.hour (by omega) (by omega),
    pad2_lt_iff dt1.minute dt2.minute (by omega) (by omega),
    pad2_inj_iff dt1.minute dt2.minute (by omega) (by omega),
    pad2_lt_iff dt1.second dt2.second (by omega) (by omega)]
  exact Iff.rfl

theorem isLeap_iff (y : Nat) :
    isLeap y = true ↔ ((y % 4 = 0 ∧ y % 100 ≠ 0) ∨ y % 400 = 0) := by
  simp [isLeap, Bool.or_eq_true, Bool.and_eq_true, decide_eq_true_eq,
    bne_iff_ne]

theorem daysBeforeMonth_succ (y m : Nat) (hm : 1 ≤ m) :
    daysBeforeMonth y (m + 1) = daysBeforeMonth y m + daysInMonth y m := by
  cases m with
  | zero => omega
  | succ k => rfl

theorem daysBeforeMonth_mono (y : Nat) {m1 m2 : Nat} (h : m1 ≤ m2) :
    daysBeforeMonth y m1 ≤ daysBeforeMonth y m2 := by
  induction m2 with
  | zero =>
    have h0 : m1 = 0 := by omega
    subst h0
    exact le_refl _
  | succ k ih =>
    rcases Nat.lt_or_ge m1 (k + 1) with hlt | hge
    · have hk : m1 ≤ k := by omega
      refine (ih hk).trans ?_
      cases k with
      | zero => exact le_refl _
      | succ j =>
        rw [daysBeforeMonth_succ y (j + 1) (by omega)]
        omega
    · have he : m1 = k + 1 := by omega
      subst he
      exact le_refl _

theorem daysBeforeMonth_13 (y : Nat) : daysBeforeMonth y 13 = daysInYear y := by
  rw [daysBeforeMonth_succ y 12 (by omega), daysBeforeMonth_succ y 11 (by omega),
    daysBeforeMonth_succ y 10 (by omega), daysBeforeMonth_succ y 9 (by omega),
    daysBeforeMonth_succ y 8 (by omega), daysBeforeMonth_succ y 7 (by omega),
    daysBeforeMonth_succ y 6 (by omega), daysBeforeMonth_succ y 5 (by omega),
    daysBeforeMonth_succ y 4 (by omega), daysBeforeMonth_succ y 3 (by omega),
    daysBeforeMonth_succ y 2 (by omega), daysBeforeMonth_succ y 1 (by omega)]
  have h0 : daysBeforeMonth y 1 = 0 := rfl
  rw [h0]
  cases hl : isLeap y <;> simp [daysInMonth, daysInYear, hl]

theorem dayOffset_le_daysInYear (y m d : Nat) (hm1 : 1 ≤ m) (hm2 : m ≤ 12)
    (hd2 : d ≤ daysInMonth y m) :
    daysBeforeMonth y m + d ≤ daysInYear y := by
  have hs := daysBeforeMonth_succ y m hm1
  have hmono : daysBeforeMonth y (m + 1) ≤ daysBeforeMonth y 13 :=
    daysBeforeMonth_mono y (by omega)
  rw [daysBeforeMonth_13] at hmono
  omega

theorem daysBeforeYear_succ (k : Nat) :
    daysBeforeYear (k + 1) = daysBeforeYear k + daysInYear (k + 1) := by
  rw [daysBeforeYear, daysBeforeYear, daysInYear]
  by_cases hp : ((k + 1) % 4 = 0 ∧ (k + 1) % 100 ≠ 0) ∨ (k + 1) % 400 = 0
  · rw [if_pos ((isLeap_iff (k + 1)).mpr hp)]
    rcases hp with ⟨h4, h100⟩ | h400 <;> omega
  · rw [if_neg (fun hc => hp ((isLeap_iff (k + 1)).mp hc))]
    have h400 : (k + 1) % 400 ≠ 0 := fun hc => hp (Or.inr hc)
    by_cases h4 : (k + 1) % 4 = 0
    · have h100 : (k + 1) % 100 = 0 := by
        by_contra hc
        exact hp (Or.inl ⟨h4, hc⟩)
      omega
    · omega

theorem daysBeforeYear_mono {a b : Nat} (h : a ≤ b) :
    daysBeforeYear a ≤ daysBeforeYear b := by
  induction b with
  | zero =>
    have h0 : a = 0 := by omega
    subst h0
    exact le_refl _
  | succ k ih =>
    rcases Nat.lt_or_ge a (k + 1) with hlt | hge
    · have hs := daysBeforeYear_succ k
      have hk := ih (by omega)
      omega
    · have he : a = k + 1 := by omega
      subst he
      exact le_refl _

theorem toEpochSeconds_lt_of_fieldLex (dt1 dt2 : DateTime)
    (h1 : ClockDateTime dt1) (h2 : ClockDateTime dt2)
    (hlex : fieldLex dt1 dt2) : toEpochSeconds dt1 < toEpochSeconds dt2 := by
  obtain ⟨y1, mo1, d1, hh1, mi1, s1⟩ := dt1
  obtain ⟨y2, mo2, d2, hh2, mi2, s2⟩ := dt2
  obtain ⟨a1, a2, a3, a4, a5, a6, a7, a8⟩ :
      1 ≤ y1 ∧ 1 ≤ mo1 ∧ mo1 ≤ 12 ∧ 1 ≤ d1 ∧ d1 ≤ daysInMonth y1 mo1 ∧
        hh1 ≤ 23 ∧ mi1 ≤ 59 ∧ s1 ≤ 59 := h1
  obtain ⟨b1, b2, b3, b4, b5, b6, b7, b8⟩ :
      1 ≤ y2 ∧ 1 ≤ mo2 ∧ mo2 ≤ 12 ∧ 1 ≤ d2 ∧ d2 ≤ daysInMonth y2 mo2 ∧
        hh2 ≤ 23 ∧ mi2 ≤ 59 ∧ s2 ≤ 59 := h2
  have hlex2 : y1 < y2 ∨ (y1 = y2 ∧ (mo1 < mo2 ∨ (mo1 = mo2 ∧ (d1 < d2 ∨
      (d1 = d2 ∧ (hh1 < hh2 ∨ (hh1 = hh2 ∧ (mi1 < mi2 ∨
      (mi1 = mi2 ∧ s1 < s2))))))))) := hlex
  show epochDays y1 mo1 d1 * 86400 + ((hh1 * 3600 + mi1 * 60 + s1 : Nat) : Int) <
    epochDays y2 mo2 d2 * 86400 + ((hh2 * 3600 + mi2 * 60 + s2 : Nat) : Int)
  simp only [epochDays]
  rcases hlex2 with hy | ⟨hy, hrest⟩
  · have hA : daysBeforeMonth y1 mo1 + d1 ≤ daysInYear y1 :=
      dayOffset_le_daysInYear y1 mo1 d1 a2 a3 a5
    have hB := daysBeforeYear_succ (y1 - 1)
    rw [Nat.sub_add_cancel a1] at hB
    have hC : daysBeforeYear y1 ≤ daysBeforeYear (y2 - 1) :=
      daysBeforeYear_mono (by omega)
    push_cast
    omega
  · subst hy
    rcases hrest with hmo | ⟨hmo, hrest⟩
    · have hs := daysBeforeMonth_succ y1 mo1 a2
      have hmono : daysBeforeMonth y1 (mo1 + 1) ≤ daysBeforeMonth y1 mo2 :=
        daysBeforeMonth_mono y1 (by omega)
      push_cast
      omega
    · subst hmo
      rcases hrest with hd | ⟨hd, hrest⟩
      · push_cast
        omega
      · subst hd
        rcases hrest with hh | ⟨hh, hrest⟩
        · push_cast
          omega
        · subst hh
          rcases hrest with hmi | ⟨hmi, hs2⟩
          · push_cast
            omega
          · subst hmi
            push_cast
            omega

theorem toEpochSeconds_lt_iff (dt1 dt2 : DateTime)
    (h1 : ClockDateTime dt1) (h2 : ClockDateTime dt2) :
    toEpochSeconds dt1 < toEpochSeconds dt2 ↔ fieldLex dt1 dt2 := by
  constructor
  · intro hlt
    have tri : fieldLex dt1 dt2 ∨ dt1 = dt2 ∨ fieldLex dt2 dt1 := by
      obtain ⟨y1, mo1, d1, hh1, mi1, s1⟩ := dt1
      obtain ⟨y2, mo2, d2, hh2, mi2, s2⟩ := dt2
      simp only [fieldLex, DateTime.mk.injEq]
      omega
    rcases tri with t | t | t
    · exact t
    · subst t
      exact absurd hlt (by omega)
    · have := toEpochSeconds_lt_of_fieldLex dt2 dt1 h2 h1 t
      omega
  · exact toEpochSeconds_lt_of_fieldLex dt1 dt2 h1 h2

/-- C1 (amended): when the process runs with UTC local time (offset 0) and
the database name consists of regex-literal, slash-free characters, the
key produced by `createS3Path` at instant `dt` carries the UTC transfer
start time: the Retention Enforcer's pattern and `Date` reconstruction
recover exactly `toEpochSeconds dt` to second precision, and the rendered
timestamp component is lexically sortable — string order coincides with
chronological order.  (With a non-zero local offset the reconstructed
instant is shifted by that offset, per the recorded counterexample.) -/
theorem key_timestamp_roundtrip_utc :
    ∀ (dt : DateTime) (name : JStr) (pfx folder : Option JStr),
      ClockDateTime dt → dt.year ≤ 9999 → regexLiteralName name →
      keyTimestamp name (createS3Path pfx 0 dt name folder) =
        some (toEpochSeconds dt)
      ∧ ∀ dt2, ClockDateTime dt2 → dt2.year ≤ 9999 →
          (jsStrLt (renderTs dt) (renderTs dt2) = true ↔
            toEpochSeconds dt < toEpochSeconds dt2) := by
  intro dt name pfx folder hc hy hn
  refine ⟨keyTimestamp_createS3Path dt name pfx folder hc hy hn, ?_⟩
  intro dt2 hc2 hy2
  rw [renderTs_lt_iff dt dt2 hc hc2 hy hy2,
    toEpochSeconds_lt_iff dt dt2 hc hc2]

/-- Witness for C1 (amended) at a concrete instant, name, prefix and
folder, with a second instant one second later for sortability. -/
theorem key_timestamp_roundtrip_utc_witness :
    keyTimestamp (js "db")
        (createS3Path (some (js "p")) 0 ⟨2024, 3, 1, 12, 30, 45⟩ (js "db")
          (some (js "f"))) =
      some (toEpochSeconds ⟨2024, 3, 1, 12, 30, 45⟩)
    ∧ jsStrLt (renderTs ⟨2024, 3, 1, 12, 30, 45⟩)
        (renderTs ⟨2024, 3, 1, 12, 30, 46⟩) = true :=
  ⟨(key_timestamp_roundtrip_utc ⟨2024, 3, 1, 12, 30, 45⟩ (js "db")
      (some (js "p")) (some (js "f")) (by decide) (by decide) (by decide)).1,
   ((key_timestamp_roundtrip_utc ⟨2024, 3, 1, 12, 30, 45⟩ (js "db")
      (some (js "p")) (some (js "f")) (by decide) (by decide) (by decide)).2
     ⟨2024, 3, 1, 12, 30, 46⟩ (by decide) (by decide)).mpr (by decide)⟩
